import Mathlib

/-!
Verification development for the UniTSyn Python test-mining pipeline
(`frontend/python/collect_test.py`).

The Python AST fragments relevant to test classification are embedded as a
rose tree (`PyNode`/`PyForest`), the classifier functions (`is_test_cls`,
`has_assert`, `is_test_outside_cls`, `is_test_inside_cls`,
`collect_test_funcs`), file discovery (`collect_test_files`) and the
per-repository pipeline (`collect_from_repo`) are translated from the source.
Components of the repository that are imported by `collect_test.py` but whose
source is not part of the analyzed tree (`navigate.ModuleNavigator`,
`navigate.dump_ast_func`, `frontend.util.wrap_repo`) are modelled from the
design document, as indicated in their doc comments.
-/

/-- Fragment of Python expressions the classifier inspects: a bare name
(`ast.Name` with its `id`), an attribute access (`ast.Attribute`, keeping the
final attribute name `attr`), or anything else. -/
inductive PyExpr where
  | name (id : String)
  | attr (a : String)
  | exprOther
deriving DecidableEq

/-- Kinds of AST nodes distinguished by the classifier: `ast.FunctionDef`
(with name and decorator list), `ast.ClassDef` (with name and base list),
`ast.Assert`, `ast.Call` (with its callee expression), and all other nodes. -/
inductive PyKind where
  | funcDef (nm : String) (decorators : List PyExpr)
  | classDef (nm : String) (bases : List PyExpr)
  | assertStmt
  | callExpr (fn : PyExpr)
  | otherNode
deriving DecidableEq

mutual
/-- A node of a parsed Python file: its kind plus the ordered forest of child
nodes (statement bodies and nested expressions alike). -/
inductive PyNode where
  | mk (kind : PyKind) (children : PyForest)
deriving DecidableEq
/-- An ordered sequence of sibling AST nodes. -/
inductive PyForest where
  | nil
  | cons (hd : PyNode) (tl : PyForest)
deriving DecidableEq
end

def PyNode.kind : PyNode → PyKind
  | .mk k _ => k

def PyNode.children : PyNode → PyForest
  | .mk _ c => c

def isFuncDef (n : PyNode) : Bool :=
  match n.kind with
  | .funcDef _ _ => true
  | _ => false

def isClassDef (n : PyNode) : Bool :=
  match n.kind with
  | .classDef _ _ => true
  | _ => false

def isAssertNode (n : PyNode) : Bool :=
  match n.kind with
  | .assertStmt => true
  | _ => false

def isCallNode (n : PyNode) : Bool :=
  match n.kind with
  | .callExpr _ => true
  | _ => false

/-- Name of a function or class definition node (`node.name` in Python);
empty for other kinds. -/
def nodeName (n : PyNode) : String :=
  match n.kind with
  | .funcDef nm _ => nm
  | .classDef nm _ => nm
  | _ => ""

/-- Decorator list of a function definition (`getattr(func, "decorator_list", [])`). -/
def nodeDecorators (n : PyNode) : List PyExpr :=
  match n.kind with
  | .funcDef _ ds => ds
  | _ => []

mutual
/-- Modelled from the spec: `ModuleNavigator.find_all` of `navigate.py` (not
part of the analyzed sources) returns the "sequence of nodes of the given kind
reachable under `root` (default: whole tree), in document order", with a
predicate in place of a fixed kind; the traversal is unconditional, so it
recurses into matching nodes as well. -/
def findAll (p : PyNode → Bool) : PyNode → List PyNode
  | .mk k cs => (if p (.mk k cs) then [PyNode.mk k cs] else []) ++ findAllF p cs
/-- `findAll` over each tree of a forest, in document order. -/
def findAllF (p : PyNode → Bool) : PyForest → List PyNode
  | .nil => []
  | .cons h t => findAll p h ++ findAllF p t
end

mutual
/-- Every node of a tree together with its ancestor path (root-to-parent,
excluding the node itself), in document order.  This pairs the result of
`find_all` with `get_path_to` of `navigate.py` (modelled from the spec: the
ancestor path runs "from the tree root down to (but excluding) a target
node"). -/
def nodesWithPaths (path : List PyNode) : PyNode → List (List PyNode × PyNode)
  | .mk k cs => (path, PyNode.mk k cs) :: nodesWithPathsF (path ++ [PyNode.mk k cs]) cs
/-- `nodesWithPaths` over each tree of a forest. -/
def nodesWithPathsF (path : List PyNode) : PyForest → List (List PyNode × PyNode)
  | .nil => []
  | .cons h t => nodesWithPaths path h ++ nodesWithPathsF path t
end

/-- All function-definition nodes of a module with their ancestor paths:
`funcs = nav.find_all(ast.FunctionDef)` followed by `path = nav.get_path_to(func)`
for each. -/
def moduleFuncs (body : PyForest) : List (List PyNode × PyNode) :=
  (nodesWithPathsF [] body).filter fun pf => isFuncDef pf.2

/-- Models Python `s.startswith(pre)`. -/
def strStartsWith (s pre : String) : Bool :=
  pre.data.isPrefixOf s.data

/-- The base-class test `isinstance(base, ast.Attribute) and base.attr == "TestCase"`
(collect_test.py lines 55-60). -/
def isBaseAttrTestCase (b : PyExpr) : Bool :=
  match b with
  | .attr a => a == "TestCase"
  | _ => false

/-- The base-class test `isinstance(base, ast.Name) and base.id == "TestCase"`
(collect_test.py lines 61-66). -/
def isBaseNameTestCase (b : PyExpr) : Bool :=
  match b with
  | .name i => i == "TestCase"
  | _ => false

/-- The member test `func.name == "__init__"` (collect_test.py line 70). -/
def isInitFunc (f : PyNode) : Bool :=
  nodeName f == "__init__"

/-- Translation of `is_test_cls` (collect_test.py lines 45-70): a class
definition is a test class when its name starts with `Test` or one of its
bases is the simple name `TestCase` or an attribute access whose final
attribute is `TestCase`, and no function definition reachable under it
(`nav.find_all(ast.FunctionDef, root=node)`) is named `__init__`. -/
def is_test_cls (node : PyNode) : Bool :=
  match node with
  | .mk (.classDef nm bases) body =>
    let hasTestName := strStartsWith nm "Test"
    let inheritUnittestAttr := bases.any isBaseAttrTestCase
    let inheritUnittestName := bases.any isBaseNameTestCase
    if !(hasTestName || inheritUnittestName || inheritUnittestAttr) then false
    else
      let cls_funcs := findAllF isFuncDef body
      !(cls_funcs.any isInitFunc)
  | _ => false

/-- Whether a call node is assertion-shaped (collect_test.py lines 77-91):
an attribute callee starting with `assert`, or a bare-name callee starting
with `assert` or equal to `raises`, `fail` or `ok_`. -/
def assertShapedCall (n : PyNode) : Bool :=
  match n.kind with
  | .callExpr (.attr a) => strStartsWith a "assert"
  | .callExpr (.name i) =>
      strStartsWith i "assert" || i == "raises" || i == "fail" || i == "ok_"
  | _ => false

/-- Translation of `has_assert` (collect_test.py lines 72-92): a built-in
assert statement anywhere under the function, or an assertion-shaped call
anywhere under it. -/
def has_assert (func : PyNode) : Bool :=
  !(findAll isAssertNode func).isEmpty || (findAll isCallNode func).any assertShapedCall

/-- Translation of `is_test_outside_cls` (collect_test.py lines 94-98). -/
def is_test_outside_cls (func : PyNode) : Bool :=
  strStartsWith (nodeName func) "test"

/-- The decorator test of collect_test.py lines 113-116: a decorator that is
the bare name `staticmethod` or `classmethods` (the plural is literal in the
source). -/
def isStaticOrClassDeco (d : PyExpr) : Bool :=
  match d with
  | .name i => i == "staticmethod" || i == "classmethods"
  | _ => false

/-- Translation of `is_test_inside_cls` (collect_test.py lines 100-116). -/
def is_test_inside_cls (func : PyNode) (path : List PyNode) : Bool :=
  let cls_path := path.filter is_test_cls
  if cls_path.length = 0 then false
  else if strStartsWith (nodeName func) "test" then true
  else (nodeDecorators func).any isStaticOrClassDeco

/-- The per-function decision of the loop in `collect_test_funcs`
(collect_test.py lines 119-127): `is_test` is set from the inside/outside
rules according to whether any ancestor is a class, then conjoined with
`has_assert`. -/
def classify (path : List PyNode) (func : PyNode) : Bool :=
  let is_cls := path.any isClassDef
  let nameOk := (is_cls && is_test_inside_cls func path) ||
                (!is_cls && is_test_outside_cls func)
  nameOk && has_assert func

/-- A discovered test-function identifier before rendering: the file path as
a list of path segments (as accumulated by `os.path.join` along `os.walk`),
and the qualified name components (enclosing class names followed by the
function name).  Rendering with `renderId` yields the
`{file_path}::{qualified_function_name}` string of the design document. -/
structure TestId where
  filePath : List String
  qual : List String
deriving DecidableEq

/-- Models joining path segments with `/` as `os.path.join` does for relative
segment lists. -/
def joinPath : List String → String
  | [] => ""
  | [s] => s
  | s :: r :: rest => s ++ "/" ++ joinPath (r :: rest)

/-- Joins qualified-name components with `.`. -/
def joinDots : List String → String
  | [] => ""
  | [s] => s
  | s :: r :: rest => s ++ "." ++ joinDots (r :: rest)

/-- Renders a `TestId` as the identifier string written to the output file. -/
def renderId (t : TestId) : String :=
  joinPath t.filePath ++ "::" ++ joinDots t.qual

/-- Modelled from the spec: `navigate.dump_ast_func` (not part of the analyzed
sources) "produces the Test Function Identifier string, joining enclosing
class names (from ancestor path, filtered to class-kind nodes) with the
function name, prefixed by `filePath`", in the format
`{file_path}::{OptionalClassName.}{function_name}`. -/
def dump_ast_func (modulePath : List String) (path : List PyNode) (func : PyNode) : TestId :=
  ⟨modulePath, (path.filter isClassDef).map nodeName ++ [nodeName func]⟩

/-- Translation of `collect_test_funcs` (collect_test.py lines 39-131): every
function-definition node of the module, with its ancestor path, is classified
by `classify`; those accepted are dumped in document order. -/
def collect_test_funcs (modulePath : List String) (body : PyForest) : List TestId :=
  (moduleFuncs body).filterMap fun pf =>
    if classify pf.1 pf.2 then some (dump_ast_func modulePath pf.1 pf.2) else none

/-- Models `re.match(".*" ++ lit, s)` for a literal tail `lit`: some prefix of
non-newline characters (matched by `.*`) is followed by `lit`; characters after
the match are unconstrained because `re.match` only anchors at the start. -/
def reMatchDotStarLit (lit : List Char) : List Char → Bool
  | [] => lit.isPrefixOf []
  | c :: cs => lit.isPrefixOf (c :: cs) || (c != '\n' && reMatchDotStarLit lit cs)

/-- Models the filename filter of `collect_test_files` (collect_test.py lines
27-34): `re.match` against the patterns `.*_test\.py` and `test_.*\.py`.
Neither pattern is end-anchored. -/
def matchesTestPattern (fname : String) : Bool :=
  reMatchDotStarLit "_test.py".data fname.data ||
  ("test_".data.isPrefixOf fname.data && reMatchDotStarLit ".py".data (fname.data.drop 5))

/-- Outcome of parsing and classifying one candidate file in the loop of
`collect_from_repo` (lines 224-234): the parse succeeds with a module body,
or raises `TimeoutException`, or raises some other exception. -/
inductive FileParse where
  | parsed (body : PyForest)
  | raisesTimeout
  | raisesOther
deriving DecidableEq

/-- A file of a repository working tree as produced by `os.walk`: the
directory segments below the repository root, the filename, and its parse
outcome. -/
structure RepoFile where
  dirs : List String
  name : String
  content : FileParse
deriving DecidableEq

/-- A repository working tree: its files in `os.walk` order. -/
structure Repo where
  files : List RepoFile
deriving DecidableEq

/-- Translation of `collect_test_files` (collect_test.py lines 25-36): walk
the tree and keep the files whose name matches one of the patterns. -/
def collect_test_files (files : List RepoFile) : List RepoFile :=
  files.filter fun f => matchesTestPattern f.name

/-- A top-level entry of an extracted archive: a directory (with the working
tree it holds) or a plain file.  `collect_from_repo` keeps only directory
entries (`os.path.isdir` filter, lines 202-206). -/
inductive TarEntry where
  | dirEntry (nm : String) (content : Repo)
  | fileEntry (nm : String)
deriving DecidableEq

/-- An archive: whether its bytes are corrupt (extraction raises) and, if not,
its top-level entries. -/
structure Tarball where
  corrupt : Bool
  entries : List TarEntry
deriving DecidableEq

/-- The `extracted_dirs` list of collect_test.py lines 202-206: the top-level
directories of the extracted archive, in listing order. -/
def extracted_dirs (t : Tarball) : List (String × Repo) :=
  t.entries.filterMap fun e =>
    match e with
    | .dirEntry nm c => some (nm, c)
    | .fileEntry _ => none

/-- Modelled from the spec: `frontend.util.wrap_repo` (not part of the
analyzed sources) sanitizes an `owner/name` identifier by replacing the
path-hostile separator `/` with a safe delimiter so the filename is a single
path segment. -/
def wrap_repo (repoId : String) : String :=
  ⟨repoId.data.map fun c => if c = '/' then '-' else c⟩

/-- The filesystem state relevant to one repository identifier: the content of
its output file `{test_root}/{wrap_repo id}.txt` if present, the working tree
at `{repo_root}/{wrap_repo id}` if present, the cached archive if present, and
what a download would fetch (`none` models a failing download). -/
structure World where
  outFile : Option (List String)
  localRepo : Option Repo
  tarball : Option Tarball
  remote : Option Tarball
deriving DecidableEq

/-- Result of one `collect_from_repo` call: the `(status, nfile, ntest)`
triple, or propagation of the repository-level `TimeoutException`. -/
inductive Outcome where
  | done (status nfile ntest : Nat)
  | timedOut
deriving DecidableEq

/-- The module path `os.path.join` builds for a file reached by walking
`repo_path = os.path.join(repo_root, wrap_repo(repo_id))`. -/
def modulePathOf (repoRoot : List String) (wrapName : String) (f : RepoFile) : List String :=
  repoRoot ++ wrapName :: (f.dirs ++ [f.name])

/-- The per-file loop of `collect_from_repo` (lines 223-234): files are
processed in order; a `TimeoutException` from a file re-raises (result
`none`); any other exception makes the file contribute nothing; files whose
classification yields no tests are skipped; otherwise the file is appended to
`test_files` and its tests extend `test_funcs`. -/
def collectLoop (repoRoot : List String) (wrapName : String) :
    List RepoFile → Option (List RepoFile × List TestId)
  | [] => some ([], [])
  | f :: fs =>
    match f.content with
    | .raisesTimeout => none
    | .raisesOther => collectLoop repoRoot wrapName fs
    | .parsed body =>
      match collectLoop repoRoot wrapName fs with
      | none => none
      | some (tfs, tfuncs) =>
        let funcs := collect_test_funcs (modulePathOf repoRoot wrapName f) body
        if funcs.isEmpty then some (tfs, tfuncs)
        else some (f :: tfs, funcs ++ tfuncs)

/-- Lines 220-261 of `collect_from_repo`: discovery, the per-file loop, the
zero-test check, the write of the output file with each identifier's path made
relative to `repo_root` (lines 241-250), and the `finally` cleanup that
removes the working tree when it was extracted by this invocation. -/
def processRepo (repoId : String) (repoRoot : List String) (repo : Repo)
    (extractedHere : Bool) (w : World) : Outcome × World :=
  let w0 := if extractedHere then { w with localRepo := none } else w
  match collectLoop repoRoot (wrap_repo repoId) (collect_test_files repo.files) with
  | none => (.timedOut, w0)
  | some (tfs, tfuncs) =>
    if tfuncs.length = 0 then (.done 2 tfs.length tfuncs.length, w0)
    else
      (.done 0 tfs.length tfuncs.length,
        { w0 with
            outFile := some (tfuncs.map fun t =>
              renderId ⟨t.filePath.drop repoRoot.length, t.qual⟩) })

/-- Lines 186-218 of `collect_from_repo`: extraction of the cached archive.
A corrupt archive raises (status 5); if the extraction produced no top-level
directory the status is 5; otherwise the first listed directory is moved to
`repo_path` and processing continues with `extracted_here = True`. -/
def extractAndProcess (repoId : String) (repoRoot : List String) (tb : Tarball)
    (w : World) : Outcome × World :=
  if tb.corrupt then (.done 5 0 0, w)
  else
    match extracted_dirs tb with
    | [] => (.done 5 0 0, w)
    | (_, repo) :: _ => processRepo repoId repoRoot repo true { w with localRepo := some repo }

/-- Translation of `collect_from_repo` (collect_test.py lines 134-261).
Statuses: 0 success, 1 repo not found, 2 no tests found, 3 skipped because the
output file exists, 4 download failed, 5 extract failed. -/
def collect_from_repo (repoId : String) (repoRoot : List String)
    (autoDownload : Bool) (w : World) : Outcome × World :=
  match w.outFile with
  | some _ => (.done 3 0 0, w)
  | none =>
    match w.localRepo with
    | some repo => processRepo repoId repoRoot repo false w
    | none =>
      if !autoDownload then (.done 1 0 0, w)
      else
        match w.tarball with
        | some tb => extractAndProcess repoId repoRoot tb w
        | none =>
          match w.remote with
          | none => (.done 4 0 0, w)
          | some tb => extractAndProcess repoId repoRoot tb { w with tarball := some tb }

/-- The repository tree that `collect_from_repo` processes, when acquisition
reaches processing: the pre-existing local tree, or the first top-level
directory of the (cached or downloaded) non-corrupt archive. -/
def acquiredRepo (autoDownload : Bool) (w : World) : Option Repo :=
  match w.localRepo with
  | some r => some r
  | none =>
    if !autoDownload then none
    else
      match (match w.tarball with | some t => some t | none => w.remote) with
      | none => none
      | some t => if t.corrupt then none else ((extracted_dirs t).head?).map Prod.snd

/-- Whether a candidate file contributes at least one test (parses and
classification yields a nonempty list). -/
def contributes (repoRoot : List String) (wrapName : String) (f : RepoFile) : Bool :=
  match f.content with
  | .parsed body => !(collect_test_funcs (modulePathOf repoRoot wrapName f) body).isEmpty
  | _ => false

/-- The tests contributed by one candidate file in the loop: the classified
list when it parses, nothing when its processing raised. -/
def fileFuncs (repoRoot : List String) (wrapName : String) (f : RepoFile) : List TestId :=
  match f.content with
  | .parsed body => collect_test_funcs (modulePathOf repoRoot wrapName f) body
  | _ => []

/-- Concatenation of the per-file contributions over a file list, in order. -/
def allFileFuncs (repoRoot : List String) (wrapName : String) : List RepoFile → List TestId
  | [] => []
  | f :: fs => fileFuncs repoRoot wrapName f ++ allFileFuncs repoRoot wrapName fs

/-- Builds a forest from a list of nodes. -/
def fl : List PyNode → PyForest
  | [] => .nil
  | x :: xs => .cons x (fl xs)

/-- The children of a forest as a plain list. -/
def PyForest.toList : PyForest → List PyNode
  | .nil => []
  | .cons h t => h :: t.toList

/-- Whether none of the DIRECT function members of a class node is named
`__init__` — the reading of the containment condition that claim C3 states
(as opposed to the recursive search the code performs). -/
def noDirectInit (n : PyNode) : Bool :=
  (n.children.toList.filter isFuncDef).all fun f => !isInitFunc f

/-- Example: an inner helper class with a constructor. -/
def exInner : PyNode :=
  .mk (.classDef "Inner" []) (fl [.mk (.funcDef "__init__" []) .nil])

/-- Example: a class named `TestFoo` whose direct function members have no
`__init__`, but which contains `exInner` (whose `__init__` is reachable). -/
def exCls : PyNode :=
  .mk (.classDef "TestFoo" [])
    (fl [exInner, .mk (.funcDef "test_a" []) (fl [.mk .assertStmt .nil])])

/-- Example: a function `test_x` containing a built-in assert. -/
def exTestx : PyNode := .mk (.funcDef "test_x" []) (fl [.mk .assertStmt .nil])

/-- Example: a test class `TestInner` holding `exTestx`. -/
def exTestInner : PyNode := .mk (.classDef "TestInner" []) (fl [exTestx])

/-- Example: a non-test class `Outer` holding the test class `exTestInner`. -/
def exOuter : PyNode := .mk (.classDef "Outer" []) (fl [exTestInner])

/-- Example: a module-scope test function with an assert, for witnesses. -/
def exModuleTest : PyNode := .mk (.funcDef "test_y" []) (fl [.mk .assertStmt .nil])

/-- Example: a file whose name matches the non-end-anchored pattern
`.*_test\.py` although its extension is `.pyc`. -/
def pycFile : RepoFile := ⟨[], "a_test.pyc", .parsed .nil⟩

/-- Example: the synthetic repository of the acquisition round-trip property:
a single file `test_foo.py` holding `def test_x(): assert True`. -/
def synRepo : Repo :=
  ⟨[⟨[], "test_foo.py", .parsed (fl [exTestx])⟩]⟩

/-- Example: an archive with exactly one top-level directory holding `synRepo`. -/
def synTb : Tarball := ⟨false, [.dirEntry "proj-main" synRepo]⟩

/-- Example: a world with no output file, no local tree, and `synTb` cached. -/
def synW : World := ⟨none, none, some synTb, none⟩

/-- Example: the world after the successful synthetic run. -/
def synW1 : World := ⟨some ["a-b/test_foo.py::test_x"], none, some synTb, none⟩

/-- Example: a repository with no files. -/
def emptyRepo : Repo := ⟨[]⟩

/-- Example: an intact archive with two top-level directories. -/
def twoTb : Tarball := ⟨false, [.dirEntry "a" emptyRepo, .dirEntry "b" emptyRepo]⟩

/-- Example: a world whose cached archive is `twoTb`. -/
def twoW : World := ⟨none, none, some twoTb, none⟩

/-- Example: a world whose cached archive is corrupt. -/
def corruptW : World := ⟨none, none, some ⟨true, []⟩, none⟩

/-- Example: a candidate file whose processing raises a non-timeout error. -/
def badOtherFile : RepoFile := ⟨[], "test_bad.py", .raisesOther⟩

/-- Example: a candidate file whose processing raises `TimeoutException`. -/
def badTimeoutFile : RepoFile := ⟨[], "test_slow.py", .raisesTimeout⟩

/-- Example: a good candidate file holding one module-scope test. -/
def goodFile : RepoFile := ⟨[], "test_good.py", .parsed (fl [exModuleTest])⟩

/-- Example: a world with a pre-existing tree containing a failing file. -/
def mixedW : World := ⟨none, some ⟨[goodFile, badOtherFile]⟩, none, none⟩

/-- Example: `mixedW` with the failing file removed. -/
def mixedW' : World := ⟨none, some ⟨[goodFile]⟩, none, none⟩

/-- Example: a world with a pre-existing tree containing a timing-out file. -/
def timeoutW : World := ⟨none, some ⟨[goodFile, badTimeoutFile]⟩, none, none⟩

theorem isBaseNameTestCase_iff (b : PyExpr) :
    isBaseNameTestCase b = true ↔ b = .name "TestCase" := by
  cases b <;> simp [isBaseNameTestCase]

theorem isBaseAttrTestCase_iff (b : PyExpr) :
    isBaseAttrTestCase b = true ↔ b = .attr "TestCase" := by
  cases b <;> simp [isBaseAttrTestCase]

theorem is_test_cls_eq (nm : String) (bases : List PyExpr) (body : PyForest) :
    is_test_cls (.mk (.classDef nm bases) body) =
      ((strStartsWith nm "Test" || bases.any isBaseNameTestCase ||
          bases.any isBaseAttrTestCase) &&
        !((findAllF isFuncDef body).any isInitFunc)) := by
  simp only [is_test_cls]
  cases strStartsWith nm "Test" <;>
    cases bases.any isBaseNameTestCase <;>
      cases bases.any isBaseAttrTestCase <;> simp

/-- C3 (amended): a class definition is treated as a test class if and only if
its name starts with `Test`, or one of its bases is the simple name `TestCase`
or an attribute access ending in `TestCase`, and no function named `__init__`
occurs among the function definitions reachable anywhere under the class —
direct members and nested ones alike (the `__init__` search recurses). -/
theorem c3_test_class_characterization (nm : String) (bases : List PyExpr) (body : PyForest) :
    is_test_cls (.mk (.classDef nm bases) body) = true ↔
      ((strStartsWith nm "Test" = true ∨ PyExpr.name "TestCase" ∈ bases ∨
          PyExpr.attr "TestCase" ∈ bases) ∧
        ∀ f ∈ findAllF isFuncDef body, nodeName f ≠ "__init__") := by
  rw [is_test_cls_eq]
  simp [List.any_eq_true, isBaseNameTestCase_iff, isBaseAttrTestCase_iff, isInitFunc, or_assoc]

/-- C3 (counterexample): the class `TestFoo` has the `Test` name prefix and no
`__init__` among its DIRECT function members, yet the classifier does not
treat it as a test class, because a nested helper class reachable under it
carries an `__init__`.  This refutes the claim's "direct function members"
reading. -/
theorem c3_nested_init_counterexample :
    is_test_cls exCls = false ∧
    strStartsWith (nodeName exCls) "Test" = true ∧
    noDirectInit exCls = true ∧
    (findAllF isFuncDef exCls.children).any isInitFunc = true := by decide

/-- C4 (amended): a function whose ancestor path contains at least one class
but no test class is never classified as a test; a non-test class in the path
does not by itself exclude the function when some other ancestor class is a
test class (see the counterexample). -/
theorem c4_no_test_class_ancestor (path : List PyNode) (func : PyNode)
    (hcls : path.any isClassDef = true)
    (hfil : path.filter is_test_cls = []) :
    classify path func = false := by
  simp [classify, is_test_inside_cls, hfil, hcls]

/-- C4 (witness): the amended statement applies to a concrete function nested
in a single non-test class. -/
theorem c4_no_test_class_ancestor_witness :
    [exOuter].any isClassDef = true ∧
    [exOuter].filter is_test_cls = [] ∧
    classify [exOuter] exTestx = false :=
  ⟨by decide, by decide, c4_no_test_class_ancestor [exOuter] exTestx (by decide) (by decide)⟩

/-- C4 (counterexample): `test_x` sits inside the test class `TestInner`,
which itself sits inside the non-test class `Outer`; its ancestor path
contains a class that is not a test class, yet the classifier produces it.
This refutes the claim that such functions are never produced. -/
theorem c4_nested_test_class_counterexample :
    is_test_cls exOuter = false ∧
    isClassDef exOuter = true ∧
    moduleFuncs (fl [exOuter]) = [([exOuter, exTestInner], exTestx)] ∧
    collect_test_funcs ["f.py"] (fl [exOuter]) =
      [⟨["f.py"], ["Outer", "TestInner", "test_x"]⟩] := by decide

/-- C8: a function at module scope (no class among its ancestors) whose name
starts with `test` is classified as a test if and only if `has_assert` holds
of it, i.e. iff it contains — at any nesting depth — a built-in assert
statement or an assertion-shaped call (attribute member starting with
`assert`, or bare name starting with `assert` or equal to `raises`, `fail`,
`ok_`). -/
theorem c8_module_scope_assert_iff (path : List PyNode) (func : PyNode)
    (hpath : path.any isClassDef = false)
    (hname : strStartsWith (nodeName func) "test" = true) :
    (classify path func = true ↔ has_assert func = true) ∧
    (has_assert func = true ↔
      (findAll isAssertNode func ≠ [] ∨
        ∃ c ∈ findAll isCallNode func, assertShapedCall c = true)) := by
  constructor
  · simp [classify, hpath, is_test_outside_cls, hname]
  · simp [has_assert, List.any_eq_true, List.isEmpty_iff]

/-- C8 (witness): the equivalence applied at a concrete module-scope test
function containing a built-in assert. -/
theorem c8_module_scope_assert_witness :
    ([] : List PyNode).any isClassDef = false ∧
    strStartsWith (nodeName exModuleTest) "test" = true ∧
    (classify [] exModuleTest = true ↔ has_assert exModuleTest = true) :=
  ⟨by decide, by decide, (c8_module_scope_assert_iff [] exModuleTest (by decide) (by decide)).1⟩

theorem reMatchDotStarLit_iff (lit : List Char) (s : List Char) :
    reMatchDotStarLit lit s = true ↔
      ∃ pre rest, s = pre ++ lit ++ rest ∧ '\n' ∉ pre := by
  induction s with
  | nil =>
    simp only [reMatchDotStarLit, List.isPrefixOf_iff_prefix, List.prefix_nil]
    constructor
    · rintro rfl
      exact ⟨[], [], by simp, by simp⟩
    · rintro ⟨pre, rest, h, -⟩
      rcases List.append_eq_nil.mp (List.append_eq_nil.mp h.symm).1 with ⟨-, h2⟩
      exact h2
  | cons c cs ih =>
    simp only [reMatchDotStarLit, Bool.or_eq_true, Bool.and_eq_true, bne_iff_ne, ne_eq,
      List.isPrefixOf_iff_prefix, ih]
    constructor
    · rintro (⟨rest, hrest⟩ | ⟨hc, pre, rest, hs, hpre⟩)
      · exact ⟨[], rest, by simp [hrest], by simp⟩
      · exact ⟨c :: pre, rest, by simp [hs], by simp [hpre, Ne.symm hc]⟩
    · rintro ⟨pre, rest, hs, hpre⟩
      cases pre with
      | nil =>
        left
        exact ⟨rest, by simpa using hs.symm⟩
      | cons p ps =>
        right
        simp only [List.cons_append, List.cons.injEq] at hs
        refine ⟨?_, ps, rest, hs.2, ?_⟩
        · rw [hs.1]; intro h; exact hpre (by simp [h])
        · intro h; exact hpre (by simp [h])

/-- C5 (amended): a file is selected as a candidate test file if and only if
its filename contains `_test.py` as a substring preceded only by non-newline
characters, or starts with `test_` and contains `.py` somewhere after that
prefix (again preceded only by non-newline characters).  The patterns are not
anchored at the end of the name, so the extension is not required to be
`.py` (see the counterexample). -/
theorem c5_file_selection_characterization (files : List RepoFile) (f : RepoFile) :
    f ∈ collect_test_files files ↔
      (f ∈ files ∧
        ((∃ pre rest, f.name.data = pre ++ "_test.py".data ++ rest ∧ '\n' ∉ pre) ∨
         ("test_".data.isPrefixOf f.name.data = true ∧
           ∃ pre rest, f.name.data.drop 5 = pre ++ ".py".data ++ rest ∧ '\n' ∉ pre))) := by
  simp [collect_test_files, List.mem_filter, matchesTestPattern,
    reMatchDotStarLit_iff]

/-- C5 (counterexample): the file `a_test.pyc` is selected by
`collect_test_files` although its name neither ends in `_test.py` nor ends in
`.py` at all, refuting the claim that only `.py` files are selected. -/
theorem c5_extension_counterexample :
    collect_test_files [pycFile] = [pycFile] ∧
    "_test.py".data.isSuffixOf pycFile.name.data = false ∧
    ".py".data.isSuffixOf pycFile.name.data = false := by decide

theorem collectLoop_some_eq (rr : List String) (wn : String) :
    ∀ (files : List RepoFile) (p : List RepoFile × List TestId),
      collectLoop rr wn files = some p →
      p = (files.filter (contributes rr wn), allFileFuncs rr wn files) := by
  intro files
  induction files with
  | nil =>
    intro p h
    simp only [collectLoop, Option.some.injEq] at h
    simp [← h, allFileFuncs]
  | cons f fs ih =>
    intro p h
    cases hc : f.content with
    | parsed body =>
      rw [collectLoop, hc] at h
      rcases hrec : collectLoop rr wn fs with _ | q
      · rw [hrec] at h; exact absurd h (by simp)
      · rw [hrec] at h
        obtain ⟨tfs, tfuncs⟩ := q
        have hq := ih (tfs, tfuncs) hrec
        by_cases he : (collect_test_funcs (modulePathOf rr wn f) body).isEmpty
        · simp only [he, if_true, Option.some.injEq] at h
          have hnil : collect_test_funcs (modulePathOf rr wn f) body = [] :=
            List.isEmpty_iff.mp he
          simp only [← h, hq, allFileFuncs, fileFuncs, hc, hnil, List.nil_append,
            List.filter_cons, contributes, he]
          simp
        · simp only [] at h
          rw [if_neg he, Option.some.injEq] at h
          have h1 := congrArg Prod.fst hq
          have h2 := congrArg Prod.snd hq
          simp only at h1 h2
          simp only [← h, allFileFuncs, fileFuncs, hc, List.filter_cons, contributes, he]
          simp [h1, h2]
    | raisesTimeout =>
      rw [collectLoop, hc] at h
      exact absurd h (by simp)
    | raisesOther =>
      rw [collectLoop, hc] at h
      have hq := ih p h
      simp only [hq, allFileFuncs, fileFuncs, hc, List.filter_cons, contributes,
        List.nil_append]
      simp [contributes, hc]

theorem collectLoop_none_iff (rr : List String) (wn : String) :
    ∀ files : List RepoFile,
      collectLoop rr wn files = none ↔ ∃ f ∈ files, f.content = .raisesTimeout := by
  intro files
  induction files with
  | nil => simp [collectLoop]
  | cons f fs ih =>
    cases hc : f.content with
    | parsed body =>
      rw [collectLoop, hc]
      rcases hrec : collectLoop rr wn fs with _ | ⟨tfs, tfuncs⟩
      · simp only []
        constructor
        · intro _
          rcases ih.mp hrec with ⟨g, hg, hgt⟩
          exact ⟨g, by simp [hg], hgt⟩
        · intro _; trivial
      · simp only [hrec] at ih
        simp only []
        constructor
        · intro h
          by_cases he : (collect_test_funcs (modulePathOf rr wn f) body).isEmpty
          · rw [if_pos he] at h; exact absurd h (by simp)
          · rw [if_neg he] at h; exact absurd h (by simp)
        · rintro ⟨g, hg, hgt⟩
          rcases List.mem_cons.mp hg with rfl | hgfs
          · rw [hc] at hgt; exact absurd hgt (by simp)
          · exact absurd (ih.mpr ⟨g, hgfs, hgt⟩) (by simp)
    | raisesTimeout =>
      rw [collectLoop, hc]
      simp only []
      exact ⟨fun _ => ⟨f, by simp, hc⟩, fun _ => trivial⟩
    | raisesOther =>
      rw [collectLoop, hc]
      simp only []
      rw [ih]
      constructor
      · rintro ⟨g, hg, hgt⟩; exact ⟨g, by simp [hg], hgt⟩
      · rintro ⟨g, hg, hgt⟩
        rcases List.mem_cons.mp hg with rfl | hgfs
        · rw [hc] at hgt; exact absurd hgt (by simp)
        · exact ⟨g, hgfs, hgt⟩

theorem collectLoop_skip (rr : List String) (wn : String) (bad : RepoFile)
    (hb : bad.content = .raisesOther) :
    ∀ xs ys : List RepoFile,
      collectLoop rr wn (xs ++ bad :: ys) = collectLoop rr wn (xs ++ ys) := by
  intro xs ys
  induction xs with
  | nil =>
    simp only [List.nil_append]
    rw [collectLoop, hb]
  | cons x xs ih =>
    simp only [List.cons_append]
    cases hx : x.content with
    | parsed body => rw [collectLoop, hx, collectLoop, hx, ih]
    | raisesTimeout => rw [collectLoop, hx, collectLoop, hx]
    | raisesOther => rw [collectLoop, hx, collectLoop, hx, ih]

theorem mem_allFileFuncs (rr : List String) (wn : String) :
    ∀ (files : List RepoFile) (t : TestId),
      t ∈ allFileFuncs rr wn files ↔ ∃ f ∈ files, t ∈ fileFuncs rr wn f := by
  intro files t
  induction files with
  | nil => simp [allFileFuncs]
  | cons f fs ih =>
    simp only [allFileFuncs, List.mem_append, ih]
    constructor
    · rintro (h | ⟨g, hg, hgt⟩)
      · exact ⟨f, by simp, h⟩
      · exact ⟨g, by simp [hg], hgt⟩
    · rintro ⟨g, hg, hgt⟩
      rcases List.mem_cons.mp hg with rfl | hgfs
      · exact Or.inl hgt
      · exact Or.inr ⟨g, hgfs, hgt⟩

theorem filter_contributes_of_allFileFuncs_nil (rr : List String) (wn : String) :
    ∀ files : List RepoFile, allFileFuncs rr wn files = [] →
      files.filter (contributes rr wn) = [] := by
  intro files
  induction files with
  | nil => simp
  | cons f fs ih =>
    intro h
    simp only [allFileFuncs, List.append_eq_nil] at h
    rw [List.filter_cons, ih h.2]
    have hcf : contributes rr wn f = false := by
      cases hc : f.content with
      | parsed body =>
        have : fileFuncs rr wn f = collect_test_funcs (modulePathOf rr wn f) body := by
          simp [fileFuncs, hc]
        rw [this] at h
        simp [contributes, hc, h.1]
      | raisesTimeout => simp [contributes, hc]
      | raisesOther => simp [contributes, hc]
    simp [hcf]

theorem collect_test_funcs_filePath (mp : List String) (body : PyForest) :
    ∀ t ∈ collect_test_funcs mp body, t.filePath = mp := by
  intro t ht
  simp only [collect_test_funcs, List.mem_filterMap] at ht
  rcases ht with ⟨pf, -, h⟩
  by_cases hcl : classify pf.1 pf.2
  · rw [if_pos hcl, Option.some.injEq] at h
    rw [← h]
    rfl
  · rw [if_neg hcl] at h
    exact absurd h (by simp)

theorem fileFuncs_filePath (rr : List String) (wn : String) (f : RepoFile) :
    ∀ t ∈ fileFuncs rr wn f, t.filePath = rr ++ wn :: (f.dirs ++ [f.name]) := by
  intro t ht
  cases hc : f.content with
  | parsed body =>
    rw [fileFuncs, hc] at ht
    exact collect_test_funcs_filePath _ _ t ht
  | raisesTimeout => rw [fileFuncs, hc] at ht; exact absurd ht (by simp)
  | raisesOther => rw [fileFuncs, hc] at ht; exact absurd ht (by simp)

theorem cleanup_outFile (here : Bool) (w : World) :
    (if here then { w with localRepo := none } else w).outFile = w.outFile := by
  cases here <;> rfl

theorem processRepo_fst_shape (rid : String) (rr : List String) (repo : Repo)
    (here : Bool) (w : World) (s n t : Nat)
    (h : (processRepo rid rr repo here w).1 = .done s n t) :
    ∃ tfs tfuncs,
      collectLoop rr (wrap_repo rid) (collect_test_files repo.files) = some (tfs, tfuncs) ∧
      n = tfs.length ∧ t = tfuncs.length ∧
      ((s = 2 ∧ tfuncs = [] ∧ (processRepo rid rr repo here w).2.outFile = w.outFile) ∨
       (s = 0 ∧ tfuncs ≠ [] ∧
         (processRepo rid rr repo here w).2.outFile =
           some (tfuncs.map fun x => renderId ⟨x.filePath.drop rr.length, x.qual⟩))) := by
  rcases hcl : collectLoop rr (wrap_repo rid) (collect_test_files repo.files) with _ | ⟨tfs, tfuncs⟩
  · rw [processRepo, hcl] at h
    exact absurd h (by simp)
  · refine ⟨tfs, tfuncs, rfl, ?_⟩
    by_cases hlen : tfuncs.length = 0
    · have hP : processRepo rid rr repo here w =
          (.done 2 tfs.length tfuncs.length,
            if here then { w with localRepo := none } else w) := by
        rw [processRepo, hcl]
        simp only [if_pos hlen]
      rw [hP] at h
      simp only [Outcome.done.injEq] at h
      obtain ⟨hs, hn, ht⟩ := h
      refine ⟨hn.symm, ht.symm, Or.inl ⟨hs.symm, List.length_eq_zero.mp hlen, ?_⟩⟩
      rw [hP]
      exact cleanup_outFile here w
    · have hP : processRepo rid rr repo here w =
          (.done 0 tfs.length tfuncs.length,
            { (if here then { w with localRepo := none } else w) with
                outFile := some (tfuncs.map fun x =>
                  renderId ⟨x.filePath.drop rr.length, x.qual⟩) }) := by
        rw [processRepo, hcl]
        simp only [if_neg hlen]
      rw [hP] at h
      simp only [Outcome.done.injEq] at h
      obtain ⟨hs, hn, ht⟩ := h
      refine ⟨hn.symm, ht.symm,
        Or.inr ⟨hs.symm, fun hnil => hlen (by simp [hnil]), ?_⟩⟩
      rw [hP]

theorem processRepo_timedOut_iff (rid : String) (rr : List String) (repo : Repo)
    (here : Bool) (w : World) :
    (processRepo rid rr repo here w).1 = .timedOut ↔
      collectLoop rr (wrap_repo rid) (collect_test_files repo.files) = none := by
  rcases hcl : collectLoop rr (wrap_repo rid) (collect_test_files repo.files) with _ | ⟨tfs, tfuncs⟩
  · have hP : processRepo rid rr repo here w =
        (.timedOut, if here then { w with localRepo := none } else w) := by
      rw [processRepo, hcl]
    simp [hP]
  · by_cases hlen : tfuncs.length = 0
    · have hP : processRepo rid rr repo here w =
          (.done 2 tfs.length tfuncs.length,
            if here then { w with localRepo := none } else w) := by
        rw [processRepo, hcl]
        simp only [if_pos hlen]
      simp [hP]
    · have hP : (processRepo rid rr repo here w).1 = .done 0 tfs.length tfuncs.length := by
        rw [processRepo, hcl]
        simp only [if_neg hlen]
      simp [hP]

theorem collect_cases (rid : String) (rr : List String) (ad : Bool) (w : World)
    (h0 : w.outFile = none) :
    (collect_from_repo rid rr ad w = (.done 1 0 0, w) ∧ acquiredRepo ad w = none) ∨
    (collect_from_repo rid rr ad w = (.done 4 0 0, w) ∧ acquiredRepo ad w = none) ∨
    (∃ w', collect_from_repo rid rr ad w = (.done 5 0 0, w') ∧ acquiredRepo ad w = none ∧
      w'.outFile = none) ∨
    (∃ repo here w', collect_from_repo rid rr ad w = processRepo rid rr repo here w' ∧
      acquiredRepo ad w = some repo ∧ w'.outFile = none) := by
  rcases hloc : w.localRepo with _ | repo
  · cases had : ad
    · left
      constructor
      · simp [collect_from_repo, h0, hloc]
      · simp [acquiredRepo, hloc]
    · rcases htb : w.tarball with _ | tb
      · rcases hrem : w.remote with _ | tb2
        · right; left
          constructor
          · simp [collect_from_repo, h0, hloc, htb, hrem]
          · simp [acquiredRepo, hloc, htb, hrem]
        · cases hcor : tb2.corrupt
          · rcases hdirs : extracted_dirs tb2 with _ | ⟨⟨d, drepo⟩, rest⟩
            · right; right; left
              refine ⟨{ w with tarball := some tb2 }, ?_, ?_, h0⟩
              · simp [collect_from_repo, h0, hloc, htb, hrem, extractAndProcess, hcor, hdirs]
              · simp [acquiredRepo, hloc, htb, hrem, hcor, hdirs]
            · right; right; right
              refine ⟨drepo, true,
                { w with tarball := some tb2, localRepo := some drepo }, ?_, ?_, h0⟩
              · simp [collect_from_repo, h0, hloc, htb, hrem, extractAndProcess, hcor, hdirs]
              · simp [acquiredRepo, hloc, htb, hrem, hcor, hdirs]
          · right; right; left
            refine ⟨{ w with tarball := some tb2 }, ?_, ?_, h0⟩
            · simp [collect_from_repo, h0, hloc, htb, hrem, extractAndProcess, hcor]
            · simp [acquiredRepo, hloc, htb, hrem, hcor]
      · cases hcor : tb.corrupt
        · rcases hdirs : extracted_dirs tb with _ | ⟨⟨d, drepo⟩, rest⟩
          · right; right; left
            refine ⟨w, ?_, ?_, h0⟩
            · simp [collect_from_repo, h0, hloc, htb, extractAndProcess, hcor, hdirs]
            · simp [acquiredRepo, hloc, htb, hcor, hdirs]
          · right; right; right
            refine ⟨drepo, true, { w with localRepo := some drepo }, ?_, ?_, h0⟩
            · simp [collect_from_repo, h0, hloc, htb, extractAndProcess, hcor, hdirs]
            · simp [acquiredRepo, hloc, htb, hcor, hdirs]
        · right; right; left
          refine ⟨w, ?_, ?_, h0⟩
          · simp [collect_from_repo, h0, hloc, htb, extractAndProcess, hcor]
          · simp [acquiredRepo, hloc, htb, hcor]
  · right; right; right
    exact ⟨repo, false, w, by simp [collect_from_repo, h0, hloc, processRepo], by
      simp [acquiredRepo, hloc], h0⟩

theorem processRepo_write_shape (rid : String) (rr : List String) (repo : Repo)
    (here : Bool) (w : World) (lines : List String)
    (h0 : w.outFile = none)
    (h : (processRepo rid rr repo here w).2.outFile = some lines) :
    ∃ tfs tfuncs,
      collectLoop rr (wrap_repo rid) (collect_test_files repo.files) = some (tfs, tfuncs) ∧
      tfuncs ≠ [] ∧
      lines = tfuncs.map (fun x => renderId ⟨x.filePath.drop rr.length, x.qual⟩) ∧
      (processRepo rid rr repo here w).1 = .done 0 tfs.length tfuncs.length := by
  rcases hcl : collectLoop rr (wrap_repo rid) (collect_test_files repo.files) with _ | ⟨tfs, tfuncs⟩
  · have hP : processRepo rid rr repo here w =
        (.timedOut, if here then { w with localRepo := none } else w) := by
      rw [processRepo, hcl]
    rw [hP] at h
    simp only [] at h
    rw [cleanup_outFile here w, h0] at h
    cases h
  · by_cases hlen : tfuncs.length = 0
    · have hP : processRepo rid rr repo here w =
          (.done 2 tfs.length tfuncs.length,
            if here then { w with localRepo := none } else w) := by
        rw [processRepo, hcl]
        simp only [if_pos hlen]
      rw [hP] at h
      simp only [] at h
      rw [cleanup_outFile here w, h0] at h
      cases h
    · have hP : processRepo rid rr repo here w =
          (.done 0 tfs.length tfuncs.length,
            { (if here then { w with localRepo := none } else w) with
                outFile := some (tfuncs.map fun x =>
                  renderId ⟨x.filePath.drop rr.length, x.qual⟩) }) := by
        rw [processRepo, hcl]
        simp only [if_neg hlen]
      rw [hP] at h
      simp only [Option.some.injEq] at h
      refine ⟨tfs, tfuncs, rfl, fun hnil => hlen (by simp [hnil]), h.symm, by rw [hP]⟩

/-- C6: `collect_from_repo` never partially writes an output file.  Starting
from a world with no output file: whenever the result is `NO_TESTS_FOUND`
(status 2) the output file is still absent and the counts are zero; whenever
the final world carries an output file, the run returned `SUCCESS` (status 0)
whose test count equals the number of written lines, the write being the
complete list collected from all candidate files; and whenever the loop over
all candidate files of the acquired repository completed having collected
zero test functions, the run returns `NO_TESTS_FOUND` (2, 0, 0) and writes
nothing. -/
theorem c6_no_partial_write (rid : String) (rr : List String) (ad : Bool) (w : World)
    (n t : Nat) (h0 : w.outFile = none) :
    ((collect_from_repo rid rr ad w).1 = .done 2 n t →
      n = 0 ∧ t = 0 ∧ (collect_from_repo rid rr ad w).2.outFile = none) ∧
    (∀ lines, (collect_from_repo rid rr ad w).2.outFile = some lines →
      ∃ m, (collect_from_repo rid rr ad w).1 = .done 0 m lines.length ∧ lines ≠ []) ∧
    (∀ repo tfs, acquiredRepo ad w = some repo →
      collectLoop rr (wrap_repo rid) (collect_test_files repo.files) = some (tfs, []) →
      (collect_from_repo rid rr ad w).1 = .done 2 0 0 ∧
      (collect_from_repo rid rr ad w).2.outFile = none) := by
  rcases collect_cases rid rr ad w h0 with ⟨hEq, hacqn⟩ | ⟨hEq, hacqn⟩ |
    ⟨w', hEq, hacqn, hw'⟩ | ⟨repo, here, w', hEq, hacq', hw'⟩
  · refine ⟨?_, ?_, ?_⟩
    · intro h; rw [hEq] at h; exact absurd h (by simp)
    · intro lines hl; rw [hEq] at hl; simp [h0] at hl
    · intro repo0 tfs hacq hzero; rw [hacqn] at hacq; cases hacq
  · refine ⟨?_, ?_, ?_⟩
    · intro h; rw [hEq] at h; exact absurd h (by simp)
    · intro lines hl; rw [hEq] at hl; simp [h0] at hl
    · intro repo0 tfs hacq hzero; rw [hacqn] at hacq; cases hacq
  · refine ⟨?_, ?_, ?_⟩
    · intro h; rw [hEq] at h; exact absurd h (by simp)
    · intro lines hl; rw [hEq] at hl; simp [hw'] at hl
    · intro repo0 tfs hacq hzero; rw [hacqn] at hacq; cases hacq
  · refine ⟨?_, ?_, ?_⟩
    · intro h
      rw [hEq] at h
      obtain ⟨tfs, tfuncs, hcl, hn, ht, hcase⟩ :=
        processRepo_fst_shape rid rr repo here w' 2 n t h
      rcases hcase with ⟨-, hnil, hout⟩ | ⟨habs, -, -⟩
      · have hpair := collectLoop_some_eq rr (wrap_repo rid) _ _ hcl
        have hfst := congrArg Prod.fst hpair
        simp only at hfst
        have htfs : tfs = [] := by
          rw [hfst]
          apply filter_contributes_of_allFileFuncs_nil
          have hsnd := congrArg Prod.snd hpair
          simp only at hsnd
          rw [← hsnd, hnil]
        refine ⟨by rw [hn, htfs]; rfl, by rw [ht, hnil]; rfl, ?_⟩
        rw [hEq, hout, hw']
      · exact absurd habs (by simp)
    · intro lines hl
      rw [hEq] at hl
      obtain ⟨tfs, tfuncs, hcl, hne, hlines, hfst⟩ :=
        processRepo_write_shape rid rr repo here w' lines hw' hl
      refine ⟨tfs.length, ?_, ?_⟩
      · rw [hEq, hfst, hlines, List.length_map]
      · rw [hlines]
        simp [hne]
    · intro repo0 tfs hacq hzero
      rw [hacq'] at hacq
      have hrepo : repo = repo0 := by injection hacq
      subst hrepo
      have hpair := collectLoop_some_eq rr (wrap_repo rid) _ _ hzero
      have hfst := congrArg Prod.fst hpair
      simp only at hfst
      have htfs : tfs = [] := by
        rw [hfst]
        apply filter_contributes_of_allFileFuncs_nil
        have hsnd := congrArg Prod.snd hpair
        simp only at hsnd
        exact hsnd.symm
      have hP : processRepo rid rr repo here w' =
          (.done 2 tfs.length 0, if here then { w' with localRepo := none } else w') := by
        rw [processRepo, hzero]
        simp
      rw [hEq, hP, htfs]
      refine ⟨rfl, ?_⟩
      simp only []
      rw [cleanup_outFile here w', hw']

/-- C6 (witness): the synthetic run writes a one-line file reporting status 0
with test count 1, and a run whose candidate loop collects zero tests (the
empty repository extracted from `twoTb`) returns (2, 0, 0) and writes
nothing. -/
theorem c6_no_partial_write_witness :
    synW.outFile = none ∧
    (∃ m, (collect_from_repo "a/b" ["data", "repos"] true synW).1 =
        .done 0 m ["a-b/test_foo.py::test_x"].length ∧
      (["a-b/test_foo.py::test_x"] : List String) ≠ []) ∧
    acquiredRepo true twoW = some emptyRepo ∧
    ((collect_from_repo "x/y" ["r"] true twoW).1 = .done 2 0 0 ∧
      (collect_from_repo "x/y" ["r"] true twoW).2.outFile = none) :=
  ⟨rfl,
    (c6_no_partial_write "a/b" ["data", "repos"] true synW 0 0 rfl).2.1
      ["a-b/test_foo.py::test_x"] (by decide),
    by decide,
    (c6_no_partial_write "x/y" ["r"] true twoW 0 0 rfl).2.2 emptyRepo []
      (by decide) (by decide)⟩

/-- C1 (amended): a successful run writes identifiers whose file-path
component is relative to the repo cache directory `repo_root`, not to the
repository's own root: every line is `renderId` of an identifier whose path
begins with the sanitized repository name `wrap_repo repo_id`, followed by
the path inside the repository.  In particular the synthetic round-trip
writes `a-b/test_foo.py::test_x`, not `test_foo.py::test_x`. -/
theorem c1_output_paths_relative_to_cache_root (rid : String) (rr : List String)
    (ad : Bool) (w : World) (lines : List String)
    (h0 : w.outFile = none)
    (hw : (collect_from_repo rid rr ad w).2.outFile = some lines) :
    ∀ line ∈ lines, ∃ rest q, rest ≠ [] ∧ line = renderId ⟨wrap_repo rid :: rest, q⟩ := by
  intro line hline
  rcases collect_cases rid rr ad w h0 with ⟨hEq, -⟩ | ⟨hEq, -⟩ |
    ⟨w', hEq, -, hw'⟩ | ⟨repo, here, w', hEq, -, hw'⟩
  · rw [hEq] at hw; simp [h0] at hw
  · rw [hEq] at hw; simp [h0] at hw
  · rw [hEq] at hw; simp [hw'] at hw
  · rw [hEq] at hw
    obtain ⟨tfs, tfuncs, hcl, -, hlines, -⟩ :=
      processRepo_write_shape rid rr repo here w' lines hw' hw
    rw [hlines] at hline
    rcases List.mem_map.mp hline with ⟨x, hx, hxline⟩
    have hsnd := congrArg Prod.snd (collectLoop_some_eq rr (wrap_repo rid) _ _ hcl)
    simp only at hsnd
    rw [hsnd] at hx
    rcases (mem_allFileFuncs rr (wrap_repo rid) _ x).mp hx with ⟨f, -, hxf⟩
    have hpath := fileFuncs_filePath rr (wrap_repo rid) f x hxf
    refine ⟨f.dirs ++ [f.name], x.qual, by simp, ?_⟩
    rw [← hxline, hpath, List.drop_left]

/-- C1 (witness): the amended statement applied to the synthetic archive run. -/
theorem c1_output_paths_witness :
    synW.outFile = none ∧
    (collect_from_repo "a/b" ["data", "repos"] true synW).2.outFile =
      some ["a-b/test_foo.py::test_x"] ∧
    ∃ rest q, rest ≠ [] ∧
      "a-b/test_foo.py::test_x" = renderId ⟨wrap_repo "a/b" :: rest, q⟩ :=
  ⟨rfl, by decide,
    c1_output_paths_relative_to_cache_root "a/b" ["data", "repos"] true synW
      ["a-b/test_foo.py::test_x"] rfl (by decide) "a-b/test_foo.py::test_x" (by decide)⟩

/-- C1 (counterexample): on the synthetic archive of the claim — exactly one
top-level directory holding a single file `test_foo.py` whose `test_x`
contains an assert — the pipeline succeeds, removes the extracted tree, keeps
the archive cached, but the single output line is `a-b/test_foo.py::test_x`
(the path is made relative to `repo_root`, the cache directory, so it starts
with the sanitized repository name), not `test_foo.py::test_x` as claimed. -/
theorem c1_roundtrip_counterexample :
    (extracted_dirs synTb).length = 1 ∧
    collect_from_repo "a/b" ["data", "repos"] true synW = (.done 0 1 1, synW1) ∧
    synW1.outFile = some ["a-b/test_foo.py::test_x"] ∧
    synW1.localRepo = none ∧
    synW1.tarball = some synTb ∧
    ("a-b/test_foo.py::test_x" : String) ≠ "test_foo.py::test_x" := by decide

/-- C2 (amended): with the archive cached and no local tree, the run reports
`EXTRACT_FAILED` (5, 0, 0) exactly when the archive is corrupt or extraction
yields zero top-level directories — and in that case the world is unchanged,
so no partial working directory is left behind.  An archive with more than one
top-level directory is NOT rejected: the first directory is processed (see the
counterexample). -/
theorem c2_extract_failed_characterization (rid : String) (rr : List String)
    (w : World) (tb : Tarball)
    (h0 : w.outFile = none) (hloc : w.localRepo = none) (htb : w.tarball = some tb) :
    ((collect_from_repo rid rr true w).1 = .done 5 0 0 ↔
      (tb.corrupt = true ∨ extracted_dirs tb = [])) ∧
    ((tb.corrupt = true ∨ extracted_dirs tb = []) →
      collect_from_repo rid rr true w = (.done 5 0 0, w)) := by
  have hred : collect_from_repo rid rr true w = extractAndProcess rid rr tb w := by
    simp [collect_from_repo, h0, hloc, htb]
  cases hcor : tb.corrupt
  · rcases hdirs : extracted_dirs tb with _ | ⟨⟨d, drepo⟩, rest⟩
    · constructor
      · rw [hred]
        simp [extractAndProcess, hcor, hdirs]
      · intro h
        rw [hred]
        simp [extractAndProcess, hcor, hdirs]
    · have hred2 : collect_from_repo rid rr true w =
          processRepo rid rr drepo true { w with localRepo := some drepo } := by
        rw [hred, extractAndProcess]
        simp [hcor, hdirs]
      constructor
      · constructor
        · intro h
          rw [hred2] at h
          obtain ⟨tfs, tfuncs, -, -, -, hcase⟩ :=
            processRepo_fst_shape rid rr drepo true _ 5 0 0 h
          rcases hcase with ⟨habs, -, -⟩ | ⟨habs, -, -⟩ <;> exact absurd habs (by decide)
        · rintro (h | h)
          · exact absurd h (by decide)
          · exact absurd h (by simp)
      · rintro (h | h)
        · exact absurd h (by decide)
        · exact absurd h (by simp)
  · constructor
    · rw [hred]
      simp [extractAndProcess, hcor]
    · intro h
      rw [hred]
      simp [extractAndProcess, hcor]

/-- C2 (witness): a corrupt archive yields `EXTRACT_FAILED` with the world
unchanged. -/
theorem c2_extract_failed_witness :
    corruptW.outFile = none ∧ corruptW.localRepo = none ∧
    corruptW.tarball = some ⟨true, []⟩ ∧
    collect_from_repo "x/y" ["r"] true corruptW = (.done 5 0 0, corruptW) :=
  ⟨rfl, rfl, rfl,
    (c2_extract_failed_characterization "x/y" ["r"] corruptW ⟨true, []⟩ rfl rfl rfl).2
      (Or.inl rfl)⟩

/-- C2 (counterexample): an intact archive with TWO top-level directories does
not yield `EXTRACT_FAILED`: `collect_from_repo` moves the first directory into
place and proceeds (here reporting `NO_TESTS_FOUND`), refuting the claim that
any number of top-level directories other than one yields status 5. -/
theorem c2_multiple_topdirs_counterexample :
    twoTb.corrupt = false ∧
    (extracted_dirs twoTb).length = 2 ∧
    collect_from_repo "x/y" ["r"] true twoW = (.done 2 0 0, twoW) := by decide

/-- C7: when the output file for a repository already exists, the run returns
`SKIPPED` (3, 0, 0) and leaves the world — acquisition caches, local tree and
output file alike — untouched; consequently a second run after a successful
one returns `SKIPPED` with the output file unchanged. -/
theorem c7_skip_idempotent (rid : String) (rr : List String) (ad : Bool)
    (w w1 : World) (n t : Nat) (c : List String) :
    (w.outFile = some c → collect_from_repo rid rr ad w = (.done 3 0 0, w)) ∧
    (collect_from_repo rid rr ad w = (.done 0 n t, w1) →
      collect_from_repo rid rr ad w1 = (.done 3 0 0, w1)) := by
  constructor
  · intro h
    simp [collect_from_repo, h]
  · intro h
    rcases h0 : w.outFile with _ | c'
    · rcases collect_cases rid rr ad w h0 with ⟨hEq, -⟩ | ⟨hEq, -⟩ |
        ⟨w', hEq, -, -⟩ | ⟨repo, here, w', hEq, -, hw'⟩
      · rw [hEq] at h; exact absurd h (by simp)
      · rw [hEq] at h; exact absurd h (by simp)
      · rw [hEq] at h; exact absurd h (by simp)
      · rw [hEq] at h
        have hfst := congrArg Prod.fst h
        have hsnd := congrArg Prod.snd h
        simp only at hfst hsnd
        obtain ⟨tfs, tfuncs, -, -, -, hcase⟩ :=
          processRepo_fst_shape rid rr repo here w' 0 n t hfst
        rcases hcase with ⟨habs, -, -⟩ | ⟨-, -, hout⟩
        · exact absurd habs (by decide)
        · rw [hsnd] at hout
          simp [collect_from_repo, hout]
    · have hskip : collect_from_repo rid rr ad w = (.done 3 0 0, w) := by
        simp [collect_from_repo, h0]
      rw [hskip] at h
      exact absurd h (by simp)

/-- C7 (witness): the synthetic run succeeds, and rerunning on the resulting
world yields `SKIPPED` with the world unchanged. -/
theorem c7_skip_idempotent_witness :
    collect_from_repo "a/b" ["data", "repos"] true synW = (.done 0 1 1, synW1) ∧
    collect_from_repo "a/b" ["data", "repos"] true synW1 = (.done 3 0 0, synW1) :=
  ⟨by decide,
    (c7_skip_idempotent "a/b" ["data", "repos"] true synW synW1 1 1 []).2 (by decide)⟩

theorem processRepo_congr (rid : String) (rr : List String) (r1 r2 : Repo)
    (w1 w2 : World)
    (hL : collectLoop rr (wrap_repo rid) (collect_test_files r1.files) =
          collectLoop rr (wrap_repo rid) (collect_test_files r2.files))
    (hO : w1.outFile = w2.outFile) :
    (processRepo rid rr r1 false w1).1 = (processRepo rid rr r2 false w2).1 ∧
    (processRepo rid rr r1 false w1).2.outFile =
      (processRepo rid rr r2 false w2).2.outFile := by
  rcases hcl : collectLoop rr (wrap_repo rid) (collect_test_files r2.files) with _ | ⟨tfs, tfuncs⟩
  · rw [hcl] at hL
    have h1 : processRepo rid rr r1 false w1 = (.timedOut, w1) := by
      rw [processRepo, hL]
      simp
    have h2 : processRepo rid rr r2 false w2 = (.timedOut, w2) := by
      rw [processRepo, hcl]
      simp
    rw [h1, h2]
    exact ⟨rfl, hO⟩
  · rw [hcl] at hL
    by_cases hlen : tfuncs.length = 0
    · have h1 : processRepo rid rr r1 false w1 = (.done 2 tfs.length tfuncs.length, w1) := by
        rw [processRepo, hL]
        simp [hlen]
      have h2 : processRepo rid rr r2 false w2 = (.done 2 tfs.length tfuncs.length, w2) := by
        rw [processRepo, hcl]
        simp [hlen]
      rw [h1, h2]
      exact ⟨rfl, hO⟩
    · have h1 : processRepo rid rr r1 false w1 =
          (.done 0 tfs.length tfuncs.length,
            { w1 with outFile := some (tfuncs.map fun x =>
                renderId ⟨x.filePath.drop rr.length, x.qual⟩) }) := by
        rw [processRepo, hL]
        simp [hlen]
      have h2 : processRepo rid rr r2 false w2 =
          (.done 0 tfs.length tfuncs.length,
            { w2 with outFile := some (tfuncs.map fun x =>
                renderId ⟨x.filePath.drop rr.length, x.qual⟩) }) := by
        rw [processRepo, hcl]
        simp [hlen]
      rw [h1, h2]
      exact ⟨rfl, rfl⟩

/-- C9: a candidate file whose processing raises a non-timeout error is
swallowed — the run's outcome and output file are the same as if the file
were absent, so every other candidate still contributes — while a candidate
raising the repository `TimeoutException` makes the whole run time out. -/
theorem c9_per_file_failures (rid : String) (rr : List String) (ad : Bool)
    (wA wA' wB : World) (xs ys : List RepoFile) (bad1 bad2 : RepoFile)
    (repoB : Repo) :
    (bad1.content = .raisesOther → wA.localRepo = some ⟨xs ++ bad1 :: ys⟩ →
      wA' = { wA with localRepo := some ⟨xs ++ ys⟩ } →
      (collect_from_repo rid rr ad wA).1 = (collect_from_repo rid rr ad wA').1 ∧
      (collect_from_repo rid rr ad wA).2.outFile =
        (collect_from_repo rid rr ad wA').2.outFile) ∧
    (wB.outFile = none → wB.localRepo = some repoB → bad2 ∈ repoB.files →
      matchesTestPattern bad2.name = true → bad2.content = .raisesTimeout →
      (collect_from_repo rid rr ad wB).1 = .timedOut) := by
  constructor
  · intro hb hloc hw'
    have hL : collectLoop rr (wrap_repo rid) (collect_test_files (xs ++ bad1 :: ys)) =
        collectLoop rr (wrap_repo rid) (collect_test_files (xs ++ ys)) := by
      by_cases hm : matchesTestPattern bad1.name
      · have h1 : collect_test_files (xs ++ bad1 :: ys) =
            collect_test_files xs ++ bad1 :: collect_test_files ys := by
          simp [collect_test_files, List.filter_append, List.filter_cons, hm]
        have h2 : collect_test_files (xs ++ ys) =
            collect_test_files xs ++ collect_test_files ys := by
          simp [collect_test_files, List.filter_append]
        rw [h1, h2, collectLoop_skip rr (wrap_repo rid) bad1 hb]
      · have h1 : collect_test_files (xs ++ bad1 :: ys) =
            collect_test_files xs ++ collect_test_files ys := by
          simp [collect_test_files, List.filter_append, List.filter_cons, hm]
        have h2 : collect_test_files (xs ++ ys) =
            collect_test_files xs ++ collect_test_files ys := by
          simp [collect_test_files, List.filter_append]
        rw [h1, h2]
    rcases h0 : wA.outFile with _ | c
    · have h0' : wA'.outFile = none := by rw [hw']; exact h0
      have hEqA : collect_from_repo rid rr ad wA =
          processRepo rid rr ⟨xs ++ bad1 :: ys⟩ false wA := by
        simp [collect_from_repo, h0, hloc]
      have hEqA' : collect_from_repo rid rr ad wA' =
          processRepo rid rr ⟨xs ++ ys⟩ false wA' := by
        have hloc' : wA'.localRepo = some ⟨xs ++ ys⟩ := by rw [hw']
        simp [collect_from_repo, h0', hloc']
      rw [hEqA, hEqA']
      exact processRepo_congr rid rr ⟨xs ++ bad1 :: ys⟩ ⟨xs ++ ys⟩ wA wA' hL
        (by rw [hw'])
    · have hA : collect_from_repo rid rr ad wA = (.done 3 0 0, wA) := by
        simp [collect_from_repo, h0]
      have h0' : wA'.outFile = some c := by rw [hw']; exact h0
      have hA' : collect_from_repo rid rr ad wA' = (.done 3 0 0, wA') := by
        simp [collect_from_repo, h0']
      rw [hA, hA']
      exact ⟨rfl, by rw [hw']⟩
  · intro h0 hloc hmem hpat ht
    have hEq : collect_from_repo rid rr ad wB = processRepo rid rr repoB false wB := by
      simp [collect_from_repo, h0, hloc]
    rw [hEq, processRepo_timedOut_iff, collectLoop_none_iff]
    exact ⟨bad2, List.mem_filter.mpr ⟨hmem, hpat⟩, ht⟩

/-- C9 (witness): removing a concretely failing file leaves outcome and output
unchanged, and a timing-out candidate makes the concrete run time out. -/
theorem c9_per_file_failures_witness :
    ((collect_from_repo "x/y" ["r"] true mixedW).1 =
        (collect_from_repo "x/y" ["r"] true mixedW').1 ∧
      (collect_from_repo "x/y" ["r"] true mixedW).2.outFile =
        (collect_from_repo "x/y" ["r"] true mixedW').2.outFile) ∧
    (collect_from_repo "x/y" ["r"] true timeoutW).1 = .timedOut :=
  ⟨(c9_per_file_failures "x/y" ["r"] true mixedW mixedW' timeoutW [goodFile] []
      badOtherFile badTimeoutFile ⟨[goodFile, badTimeoutFile]⟩).1 rfl rfl (by decide),
    (c9_per_file_failures "x/y" ["r"] true mixedW mixedW' timeoutW [goodFile] []
      badOtherFile badTimeoutFile ⟨[goodFile, badTimeoutFile]⟩).2 rfl rfl
      (by decide) (by decide) rfl⟩

/-- C10: on any run that completes with a status (is not timed out) after
acquisition succeeded, the reported `file_count` equals the number of
candidate test files whose classification produced at least one test; in
particular a `NO_TESTS_FOUND` run reports `file_count` 0 (and `test_count`
0). -/
theorem c10_file_count (rid : String) (rr : List String) (ad : Bool) (w : World)
    (repo : Repo) (s n t : Nat)
    (h0 : w.outFile = none) (hacq : acquiredRepo ad w = some repo)
    (hdone : (collect_from_repo rid rr ad w).1 = .done s n t) :
    n = ((collect_test_files repo.files).filter (contributes rr (wrap_repo rid))).length ∧
    (s = 2 → n = 0 ∧ t = 0) := by
  rcases collect_cases rid rr ad w h0 with ⟨-, hn⟩ | ⟨-, hn⟩ | ⟨w', -, hn, -⟩ |
    ⟨repo', here, w', hEq, hacq', hw'⟩
  · rw [hn] at hacq; cases hacq
  · rw [hn] at hacq; cases hacq
  · rw [hn] at hacq; cases hacq
  · rw [hacq'] at hacq
    have hrepo : repo' = repo := by injection hacq
    subst hrepo
    rw [hEq] at hdone
    obtain ⟨tfs, tfuncs, hcl, hn', ht', hcase⟩ :=
      processRepo_fst_shape rid rr repo' here w' s n t hdone
    have hpair := collectLoop_some_eq rr (wrap_repo rid) _ _ hcl
    have hfst := congrArg Prod.fst hpair
    have hsnd := congrArg Prod.snd hpair
    simp only at hfst hsnd
    refine ⟨by rw [hn', hfst], ?_⟩
    intro hs2
    rcases hcase with ⟨-, hnil, -⟩ | ⟨hs0, -, -⟩
    · have hall : allFileFuncs rr (wrap_repo rid) (collect_test_files repo'.files) = [] := by
        rw [← hsnd]
        exact hnil
      constructor
      · rw [hn', hfst, filter_contributes_of_allFileFuncs_nil _ _ _ hall]
        rfl
      · rw [ht', hnil]
        rfl
    · rw [hs2] at hs0
      exact absurd hs0 (by decide)

/-- C10 (witness): on the synthetic run, `file_count` 1 equals the number of
contributing candidate files. -/
theorem c10_file_count_witness :
    acquiredRepo true synW = some synRepo ∧
    (collect_from_repo "a/b" ["data", "repos"] true synW).1 = .done 0 1 1 ∧
    (1 : Nat) = ((collect_test_files synRepo.files).filter
      (contributes ["data", "repos"] (wrap_repo "a/b"))).length :=
  ⟨by decide, by decide,
    (c10_file_count "a/b" ["data", "repos"] true synW synRepo 0 1 1 rfl
      (by decide) (by decide)).1⟩
